import Mathlib

/-!
Shallow embedding of the claude-code-vercel-proxy worker (TypeScript sources:
src/unnamed/part_002 — the AI-gateway multi-key variant, src/unnamed/part_001,
and src/src/index.ts) together with proofs settling the frozen claims about
credential rotation, quota failover, format conversion and the streaming
re-framer.

Conventions of the embedding:
* JavaScript strings are Lean `String`; `undefined`/missing fields are `Option`.
* JavaScript truthiness of a string (`if (s)`) is modelled as `s ≠ ""` and of an
  optional value as `Option.isSome` (with the empty-string caveat where the
  source tests a string-typed field).
* Structured JSON payloads that the code merely passes through or serializes
  (tool-call arguments, non-string tool results) are carried as their
  serialized `String` form, since no code path inspects their structure.
* Wall-clock time (`new Date()` / UTC accessors) is passed explicitly as a
  `UTCNow` record; `Date.UTC(year, month + 1, 15)` month rollover is made
  explicit.
-/

-- ==================== Shared wall-clock model ====================

/-- A UTC instant as read through `getUTCFullYear` / `getUTCMonth() + 1` /
`getUTCDate` and the time-of-day accessors.  `month` is 1–12, `day` 1–31. -/
structure UTCNow where
  year : Nat
  month : Nat
  day : Nat
  hour : Nat
  minute : Nat
  second : Nat
deriving DecidableEq, Repr

/-- The ranges guaranteed by the JavaScript `Date` accessors. -/
def validUTC (t : UTCNow) : Prop :=
  1 ≤ t.month ∧ t.month ≤ 12 ∧ 1 ≤ t.day ∧ t.day ≤ 31 ∧
  t.hour ≤ 23 ∧ t.minute ≤ 59 ∧ t.second ≤ 59

instance (t : UTCNow) : Decidable (validUTC t) := by
  unfold validUTC; infer_instance

/-- Monotone encoding of a `UTCNow` into seconds-like units: strictly more
seconds means strictly later.  (Days are padded to 31, months to 12, so the
encoding is strictly monotone in the lexicographic calendar order.) -/
def timeKey (t : UTCNow) : Nat :=
  ((t.year * 12 + (t.month - 1)) * 31 + (t.day - 1)) * 86400 +
    t.hour * 3600 + t.minute * 60 + t.second

-- ==================== Key management (part_002, KeyManager) ====================

/-- 32-bit signed wrap, the effect of JavaScript `| 0` / `&` on a number. -/
def toInt32 (n : Int) : Int := (n + 2 ^ 31) % 2 ^ 32 - 2 ^ 31

/-- One step of `simpleHash`: `hash = ((hash << 5) - hash) + char; hash = hash & hash`. -/
def simpleHashStep (hash : Int) (c : Char) : Int :=
  toInt32 (toInt32 (hash * 32) - hash + c.toNat)

/-- `KeyManager.simpleHash`: fold the step over the characters, then
`Math.abs(hash).toString(16)`. -/
def simpleHash (s : String) : String :=
  String.mk (Nat.toDigits 16 (s.data.foldl simpleHashStep 0).natAbs)

/-- `KeyManager.getKVKey`. -/
def getKVKey (apiKey : String) : String := "key_status_" ++ simpleHash apiKey

/-- `KeyManager.isKeyKnownDisabled`: membership of the key's KV key in the
process-local `disabledKeysCache` set (modelled as the list of stored KV keys). -/
def isKeyKnownDisabled (disabledKeysCache : List String) (apiKey : String) : Bool :=
  disabledKeysCache.contains (getKVKey apiKey)

/-- `KeyManager.getKeysToTry`: walk all indices `(currentIndex + i) % len`,
keep keys not known-disabled, and advance the cursor by one. Returns the
candidate list and the updated `currentIndex`. -/
def getKeysToTry (keys : List String) (currentIndex : Nat)
    (disabledKeysCache : List String) : List String × Nat :=
  let len := keys.length
  let result := (List.range len).filterMap (fun i =>
    let key := keys.getD ((currentIndex + i) % len) ""
    if isKeyKnownDisabled disabledKeysCache key then none else some key)
  (result, (currentIndex + 1) % len)

/-- Iterate `getKeysToTry` for a number of consecutive calls (same key list and
disabled cache), collecting each call's returned candidate list. -/
def keysToTryCalls (keys : List String) (disabledKeysCache : List String) :
    Nat → Nat → List (List String)
  | _, 0 => []
  | i, n + 1 =>
    let r := getKeysToTry keys i disabledKeysCache
    r.1 :: keysToTryCalls keys disabledKeysCache r.2 n

/-- The persisted KV record for a disabled key (`KeyStatus` in types.ts). -/
structure KeyStatus where
  disabledAt : Nat
  reason : String
  lastResetMonth : Nat
deriving DecidableEq, Repr

/-- `KeyManager.shouldResetKeys`: `(day >= 15, getUTCMonth() + 1)`. -/
def shouldResetKeys (now : UTCNow) : Bool × Nat :=
  (15 ≤ now.day, now.month)

/-- The record written by `KeyManager.disableKey` (`Date.now()` millis passed
explicitly). -/
def disableKeyStatus (now : UTCNow) (reason : String) (nowMillis : Nat) : KeyStatus :=
  { disabledAt := nowMillis, reason := reason, lastResetMonth := now.month }

/-- `KeyManager.isKeyDisabledInKV`: given the record currently stored under the
key's digest (`none` if absent or unparseable) and the current time, returns
whether the key is reported disabled together with the record remaining in KV
afterwards (`none` once deleted). -/
def isKeyDisabledInKV (record : Option KeyStatus) (now : UTCNow) :
    Bool × Option KeyStatus :=
  match record with
  | none => (false, none)
  | some status =>
    let sr := shouldResetKeys now
    if sr.1 && status.lastResetMonth ≠ sr.2 then
      (false, none)
    else
      (true, some status)

-- ==================== Quota classification and dispatch (part_002) ====================

/-- Is `pat` a contiguous substring of `hay` (JavaScript `String.includes`)? -/
def strIncludes (hay pat : String) : Bool :=
  go hay.data
where
  go : List Char → Bool
  | [] => pat.data.isEmpty
  | c :: rest => pat.data.isPrefixOf (c :: rest) || go rest

/-- JavaScript `String.prototype.toLowerCase()` restricted to the ASCII
alphabet (all strings compared by `isQuotaError` are ASCII): lower-case every
character. -/
def jsToLower (s : String) : String := String.mk (s.data.map Char.toLower)

/-- An upstream error object as inspected by `isQuotaError` and the retry loop:
its `message` and `type` fields, each possibly absent. -/
structure ErrInfo where
  message : Option String
  type : Option String
deriving DecidableEq, Repr

/-- The fixed keyword list of `KeyManager.isQuotaError`. -/
def quotaKeywords : List String :=
  ["quota", "insufficient", "exceeded", "limit reached", "billing",
   "payment required", "credit", "balance", "usage limit", "spending limit"]

/-- `KeyManager.isQuotaError`: case-insensitive keyword match over the error's
message and type. -/
def isQuotaError (e : ErrInfo) : Bool :=
  let errorMessage := jsToLower (e.message.getD "")
  let errorType := jsToLower (e.type.getD "")
  quotaKeywords.any (fun keyword =>
    strIncludes errorMessage keyword || strIncludes errorType keyword)

/-- `getNextResetDate`: the 15th (start of UTC day) of the current month if
today's UTC day precedes the 15th, else of the next month (with explicit
December rollover for `Date.UTC(year, month + 1, 15)`). -/
def getNextResetDate (now : UTCNow) : UTCNow :=
  if now.day < 15 then
    { year := now.year, month := now.month, day := 15,
      hour := 0, minute := 0, second := 0 }
  else if now.month = 12 then
    { year := now.year + 1, month := 1, day := 15,
      hour := 0, minute := 0, second := 0 }
  else
    { year := now.year, month := now.month + 1, day := 15,
      hour := 0, minute := 0, second := 0 }

/-- Outcome of one upstream attempt (`handleMessages(body, apiKey)`): a
successful response, a non-ok HTTP response whose parsed body carried the given
`error` field (`none` when parsing failed or the field was absent), or a thrown
exception. -/
inductive AttemptOutcome where
  | ok
  | httpError (status : Nat) (errorBody : Option ErrInfo)
  | thrown (error : ErrInfo)
deriving DecidableEq, Repr

/-- The classification applied by `handleMessagesWithRetry` to decide whether
to rotate to the next key. -/
def isQuotaOutcome : AttemptOutcome → Bool
  | .ok => false
  | .httpError status errorBody =>
    status == 429 || (match errorBody with
                      | some e => isQuotaError e
                      | none => false)
  | .thrown error => isQuotaError error

/-- Terminal result of `handleMessagesWithRetry`. -/
inductive RetryResult where
  | success (key : String)
  | errorResponse (key : String) (status : Nat) (errorBody : Option ErrInfo)
  | thrownError (error : ErrInfo)
  | quotaExhausted (status : Nat) (message : String) (nextReset : UTCNow)
deriving DecidableEq, Repr

/-- `lastError?.message || 'All API keys have exhausted their quota.'` (an
empty-string message is falsy and also falls back to the default). -/
def exhaustMessage (lastError : Option ErrInfo) : String :=
  match lastError with
  | some e =>
    match e.message with
    | some m => if m = "" then "All API keys have exhausted their quota." else m
    | none => "All API keys have exhausted their quota."
  | none => "All API keys have exhausted their quota."

/-- The error info the retry loop records as `lastError` after an exhaustion
failure of the given outcome. -/
def outcomeErrInfo : AttemptOutcome → Option ErrInfo
  | .ok => none
  | .httpError _ errorBody => errorBody
  | .thrown error => some error

/-- The result `handleMessagesWithRetry` produces when the given candidate's
outcome is not classified as exhaustion: a successful or non-quota error
response is returned as-is, a non-quota exception is rethrown. -/
def immediateResult (key : String) : AttemptOutcome → RetryResult
  | .ok => .success key
  | .httpError status errorBody => .errorResponse key status errorBody
  | .thrown error => .thrownError error

/-- The `for (const apiKey of keysToTry)` loop of `handleMessagesWithRetry`,
threading `lastError` and the list of keys passed to `disableKey`. -/
def tryKeys (attempt : String → AttemptOutcome) (now : UTCNow) :
    List String → Option ErrInfo → List String → RetryResult × List String
  | [], lastError, disabled =>
    (.quotaExhausted 429 (exhaustMessage lastError) (getNextResetDate now), disabled)
  | k :: rest, _lastError, disabled =>
    match attempt k with
    | .ok => (.success k, disabled)
    | .httpError status errorBody =>
      if status == 429 || (match errorBody with
                           | some e => isQuotaError e
                           | none => false) then
        tryKeys attempt now rest errorBody (disabled ++ [k])
      else
        (.errorResponse k status errorBody, disabled)
    | .thrown error =>
      if isQuotaError error then
        tryKeys attempt now rest (some error) (disabled ++ [k])
      else
        (.thrownError error, disabled)

/-- `handleMessagesWithRetry`: empty candidate list fails immediately with the
fixed quota-exhausted envelope, otherwise the loop above runs. Also returns the
keys disabled along the way. -/
def handleMessagesWithRetry (keysToTry : List String)
    (attempt : String → AttemptOutcome) (now : UTCNow) : RetryResult × List String :=
  if keysToTry.length = 0 then
    (.quotaExhausted 429
      "All API keys have exhausted their quota. Keys will reset on the 15th of each month."
      (getNextResetDate now), [])
  else
    tryKeys attempt now keysToTry none []

-- ==================== Anthropic-side data model ====================

/-- `cache_control` marker (`{ type: 'ephemeral', ttl? }`). -/
structure CacheControl where
  type : String
  ttl : Option String
deriving DecidableEq, Repr

/-- Inline-encoded media (`source` field of image/document blocks). -/
structure MediaSource where
  type : String
  media_type : String
  data : String
deriving DecidableEq, Repr

/-- Payload of a `tool_result` block: a plain string, or a non-string value
carried as its JSON serialization (the code only ever `JSON.stringify`s it). -/
inductive ToolResultContent where
  | str (s : String)
  | jsonValue (serialized : String)
deriving DecidableEq, Repr

/-- A content block of the loosely-typed `ContentBlock` interface used by the
part_001/part_002 converters (optional fields per variant, discriminated by
`type`). -/
inductive ContentBlock where
  | text (text : String) (cache_control : Option CacheControl)
  | thinking (thinking : Option String)
  | image (source : Option MediaSource) (cache_control : Option CacheControl)
  | document (source : Option MediaSource) (cache_control : Option CacheControl)
  | tool_use (id : String) (name : String) (input : String)
  | tool_result (tool_use_id : String) (content : ToolResultContent)
      (is_error : Option Bool)
deriving DecidableEq, Repr

/-- Message role. -/
inductive Role where
  | user
  | assistant
deriving DecidableEq, Repr

/-- Message content: plain string or ordered block list. -/
inductive MessageContent where
  | str (s : String)
  | blocks (bs : List ContentBlock)
deriving DecidableEq, Repr

/-- An inbound Anthropic message. -/
structure AnthropicMessage where
  role : Role
  content : MessageContent
deriving DecidableEq, Repr

-- ==================== AI-SDK-side (CoreMessage) model ====================

/-- A part of an AI SDK `CoreMessage` content array, as produced by the
converters.  `providerOptions` carries the `anthropic.cacheControl` annotation
when present. -/
inductive CorePart where
  | text (text : String) (providerOptions : Option CacheControl)
  | image (image : String) (providerOptions : Option CacheControl)
  | file (data : String) (mimeType : String) (providerOptions : Option CacheControl)
  | toolCall (toolCallId : String) (toolName : String) (args : String)
  | toolResult (toolCallId : String) (result : String) (isError : Option Bool)
deriving DecidableEq, Repr

/-- `CoreMessage` content: plain string or parts array. -/
inductive CoreContent where
  | str (s : String)
  | parts (ps : List CorePart)
deriving DecidableEq, Repr

/-- A converted AI SDK message. -/
structure CoreMessage where
  role : Role
  content : CoreContent
deriving DecidableEq, Repr

/-- The data-URI string built for an image block. -/
def imageDataURI (src : MediaSource) : String :=
  "data:" ++ src.media_type ++ ";base64," ++ src.data

/-- The string payload pushed for a `tool_result` block:
`typeof content === 'string' ? content : JSON.stringify(content)`. -/
def toolResultString : ToolResultContent → String
  | .str s => s
  | .jsonValue j => j

-- ==================== convertMessagesToAISDK (part_002) ====================

/-- The parts pushed for one content block by `convertMessagesToAISDK`
(part_002): text keeps its cache hint as provider options; a thinking block is
folded into `<thinking>…</thinking>` text and dropped when empty/absent;
image/document blocks are dropped when `source` is absent; tool-use/tool-result
are always pushed (part_002's tool-result carries no error flag). -/
def blockToParts : ContentBlock → List CorePart
  | .text t cc => [.text t cc]
  | .thinking th =>
    match th with
    | some s => if s = "" then [] else [.text ("<thinking>" ++ s ++ "</thinking>") none]
    | none => []
  | .image src cc =>
    match src with
    | some s => [.image (imageDataURI s) cc]
    | none => []
  | .document src cc =>
    match src with
    | some s => [.file s.data s.media_type cc]
    | none => []
  | .tool_use id name input => [.toolCall id name input]
  | .tool_result tid content _ => [.toolResult tid (toolResultString content) none]

/-- One iteration of the `for (const msg of messages)` loop of
`convertMessagesToAISDK`: string content passes through; otherwise the block
parts are collected, a lone plain-text part without provider options collapses
to string content, and a message with zero parts pushes nothing (`none`). -/
def convertMessageToAISDK (msg : AnthropicMessage) : Option CoreMessage :=
  match msg.content with
  | .str s => some { role := msg.role, content := .str s }
  | .blocks bs =>
    let parts := bs.flatMap blockToParts
    match parts with
    | [] => none
    | [p] =>
      match p with
      | .text t none => some { role := msg.role, content := .str t }
      | _ => some { role := msg.role, content := .parts parts }
    | _ => some { role := msg.role, content := .parts parts }

/-- `convertMessagesToAISDK` (part_002): the loop pushes at most one converted
message per input message. -/
def convertMessagesToAISDK : List AnthropicMessage → List CoreMessage
  | [] => []
  | msg :: rest =>
    match convertMessageToAISDK msg with
    | some cm => cm :: convertMessagesToAISDK rest
    | none => convertMessagesToAISDK rest

-- ==================== convertMessages (src/src/index.ts) ====================

/-- The parts pushed for one content block by `convertMessages`
(src/src/index.ts): every block kind pushes exactly one part; a thinking block
becomes `[Thinking]: …` text; tool-result keeps `is_error`.  (The strict types
of src/types.ts make `source` mandatory; an absent `source` is outside that
variant's domain and is mapped like the part_002 guard.) -/
def blockToPartsSrc : ContentBlock → List CorePart
  | .text t cc => [.text t cc]
  | .thinking th => [.text ("[Thinking]: " ++ th.getD "") none]
  | .image src cc =>
    match src with
    | some s => [.image (imageDataURI s) cc]
    | none => []
  | .document src cc =>
    match src with
    | some s => [.file s.data s.media_type cc]
    | none => []
  | .tool_use id name input => [.toolCall id name input]
  | .tool_result tid content isErr => [.toolResult tid (toolResultString content) isErr]

/-- `convertMessages` (src/src/index.ts): `messages.map(...)` — exactly one
output per input, string content passes through, block content always becomes
a parts array (no collapse, no omission). -/
def convertMessages (messages : List AnthropicMessage) : List CoreMessage :=
  messages.map (fun msg =>
    match msg.content with
    | .str s => { role := msg.role, content := .str s }
    | .blocks bs => { role := msg.role, content := .parts (bs.flatMap blockToPartsSrc) })

-- ==================== System prompt conversion ====================

/-- A system-prompt segment (`{ type: 'text', text, cache_control? }`). -/
structure SystemBlock where
  type : String
  text : String
  cache_control : Option CacheControl
deriving DecidableEq, Repr

/-- The `system` field of a request: plain string or segment array. -/
inductive SystemInput where
  | str (s : String)
  | blocks (bs : List SystemBlock)
deriving DecidableEq, Repr

/-- A provider segment produced by `buildSystemContent`. -/
structure SystemPart where
  type : String
  text : String
  providerOptions : Option CacheControl
deriving DecidableEq, Repr

/-- Result shape of `buildSystemContent`: a string or an array of segments. -/
inductive SystemOut where
  | str (s : String)
  | parts (ps : List SystemPart)
deriving DecidableEq, Repr

/-- The provider segment `buildSystemContent` builds for one input segment:
`{ type: 'text', text }` plus the cache hint as provider options when present. -/
def systemSegment (block : SystemBlock) : SystemPart :=
  { type := "text", text := block.text, providerOptions := block.cache_control }

/-- `buildSystemContent` (part_002): `if (!system) return undefined` (note the
empty string is falsy), a string passes through, and an array is mapped one
provider segment per input segment, each keeping its cache hint. -/
def buildSystemContent : Option SystemInput → Option SystemOut
  | none => none
  | some (.str s) => if s = "" then none else some (.str s)
  | some (.blocks bs) => some (.parts (bs.map systemSegment))

/-- The inline system handling of part_001's `handleMessages` (lines 68–72):
a string passes through, an array is joined into one newline-separated string,
discarding cache hints. -/
def systemOfPart001 : Option SystemInput → Option String
  | none => none
  | some (.str s) => some s
  | some (.blocks bs) => some (String.intercalate "\n" (bs.map (fun s => s.text)))

/-- Whether a `buildSystemContent` result is the single-string form. -/
def sysOutIsStr : Option SystemOut → Bool
  | some (.str _) => true
  | _ => false

-- ==================== Tool choice conversion ====================

/-- A runtime `tool_choice` value: a plain string, or an object with `type`
and (for the `tool` form) `name` fields. -/
inductive ToolChoiceValue where
  | str (s : String)
  | obj (type : String) (name : String)
deriving DecidableEq, Repr

/-- The AI SDK `toolChoice` values the converters can produce. -/
inductive ToolChoiceOut where
  | auto
  | noneChoice
  | required
  | tool (toolName : String)
deriving DecidableEq, Repr

/-- `convertToolChoice` (part_002): string `'auto'`/`'none'` match directly,
objects with `type` `'any'`/`'tool'` map to `required`/named tool, and anything
else falls through to `'auto'` (a string other than those two has no `.type`,
so it reaches the final `return 'auto'`). -/
def convertToolChoice : ToolChoiceValue → ToolChoiceOut
  | .str s =>
    if s = "auto" then .auto
    else if s = "none" then .noneChoice
    else .auto
  | .obj ty name =>
    if ty = "any" then .required
    else if ty = "tool" then .tool name
    else .auto

/-- The typed `tool_choice` object of src/types.ts (`{ type, name? }`). -/
structure AnthropicToolChoice where
  type : String
  name : String
deriving DecidableEq, Repr

/-- `convertToolChoice` (src/src/index.ts): `undefined` input and any
unrecognized `type` return `undefined` (the `default:` branch). -/
def convertToolChoiceSrc : Option AnthropicToolChoice → Option ToolChoiceOut
  | none => none
  | some tc =>
    if tc.type = "auto" then some .auto
    else if tc.type = "none" then some .noneChoice
    else if tc.type = "any" then some .required
    else if tc.type = "tool" then some (.tool tc.name)
    else none

-- ==================== Non-stream response building ====================

/-- A tool call reported by the upstream result. -/
structure UpToolCall where
  toolCallId : String
  toolName : String
  args : String
deriving DecidableEq, Repr

/-- The fields of the `generateText` result inspected when building the
wire-format response. -/
structure GenResult where
  text : String
  reasoning : Option String
  toolCalls : List UpToolCall
  finishReason : String
  stopSequence : Option String
  promptTokens : Nat
  completionTokens : Nat
deriving DecidableEq, Repr

/-- A content block of the wire-format response. -/
inductive RespBlock where
  | thinking (thinking : String)
  | text (text : String)
  | tool_use (id : String) (name : String) (input : String)
deriving DecidableEq, Repr

/-- The ordered content list both non-stream builders assemble: optional
thinking block (when `result.reasoning` is truthy), then text (when non-empty),
then one tool-use block per reported call. -/
def responseContent (r : GenResult) : List RespBlock :=
  (match r.reasoning with
   | some s => if s = "" then [] else [RespBlock.thinking s]
   | none => []) ++
  (if r.text = "" then [] else [RespBlock.text r.text]) ++
  r.toolCalls.map (fun tc => RespBlock.tool_use tc.toolCallId tc.toolName tc.args)

/-- Stop-reason computation of `buildResponse` (src/src/index.ts lines
1172–1180): `tool-calls` → `tool_use`, `length` → `max_tokens`, `stop` →
`stop_sequence` when `result.stopSequence` is truthy else `end_turn`, default
`end_turn`. -/
def buildResponseStopReason (r : GenResult) : String :=
  if r.finishReason = "tool-calls" then "tool_use"
  else if r.finishReason = "length" then "max_tokens"
  else if r.finishReason = "stop" then
    (match r.stopSequence with
     | some s => if s = "" then "end_turn" else "stop_sequence"
     | none => "end_turn")
  else "end_turn"

/-- Stop-reason computation of part_002's `handleNonStreamResponse`:
`result.toolCalls?.length ? 'tool_use' : 'end_turn'` — the upstream
`finishReason` is never consulted. -/
def nonStreamStopReason (r : GenResult) : String :=
  if r.toolCalls.length ≠ 0 then "tool_use" else "end_turn"

-- ==================== Stream re-framer (part_002, handleStreamResponse) ====================

/-- An upstream `fullStream` part, reduced to the fields
`handleStreamResponse` reads.  For `reasoning`/`text-delta` parts the string is
the value `extractTextDelta` resolves from the part (empty when every probed
property is absent). -/
inductive UpEvent where
  | errorPart (message : Option String)
  | reasoning (textDelta : String)
  | textDelta (textDelta : String)
  | toolCall (toolCallId : String) (toolName : String) (args : String)
  | finish (finishReason : String) (completionTokens : Nat)
  | stepStart
  | stepFinish
  | unknown
deriving DecidableEq, Repr

/-- Kinds of content blocks opened by the re-framer. -/
inductive BlockKind where
  | thinkingBlock
  | textBlock
  | toolUseBlock
deriving DecidableEq, Repr

/-- An SSE event emitted by the re-framer, reduced to the fields the streaming
claims are about (block indices and kinds, delta payloads, terminal events). -/
inductive OutEv where
  | messageStart
  | blockStart (index : Nat) (kind : BlockKind)
  | blockDelta (index : Nat) (payload : String)
  | blockStop (index : Nat)
  | errorEvent
  | messageDelta (stopReason : String) (outputTokens : Nat)
  | messageStop
deriving DecidableEq, Repr

/-- The mutable locals of `handleStreamResponse`. -/
structure StreamState where
  contentBlockIndex : Nat
  hasStartedTextBlock : Bool
  hasThinkingBlock : Bool
  hasAnyContent : Bool
  streamError : Bool
deriving DecidableEq, Repr

/-- Initial state of a streamed response. -/
def initialStreamState : StreamState :=
  { contentBlockIndex := 0, hasStartedTextBlock := false,
    hasThinkingBlock := false, hasAnyContent := false, streamError := false }

/-- One iteration of the `for await (const part of result.fullStream)` switch
of part_002's `handleStreamResponse`: returns the updated locals and the SSE
events sent for this part, in order. -/
def processPart (s : StreamState) : UpEvent → StreamState × List OutEv
  | .errorPart _ =>
    ({ s with streamError := true }, [.errorEvent])
  | .reasoning t =>
    let deltas : List OutEv := if t = "" then [] else [.blockDelta s.contentBlockIndex t]
    if s.hasThinkingBlock then
      ({ s with hasAnyContent := true }, deltas)
    else
      ({ s with hasAnyContent := true, hasThinkingBlock := true },
       .blockStart s.contentBlockIndex .thinkingBlock :: deltas)
  | .textDelta t =>
    let closeThinking := s.hasThinkingBlock && !s.hasStartedTextBlock
    let idx := if closeThinking then s.contentBlockIndex + 1 else s.contentBlockIndex
    let stops : List OutEv := if closeThinking then [.blockStop s.contentBlockIndex] else []
    let starts : List OutEv := if !s.hasStartedTextBlock then [.blockStart idx .textBlock] else []
    let deltas : List OutEv := if t = "" then [] else [.blockDelta idx t]
    ({ contentBlockIndex := idx,
       hasStartedTextBlock := true,
       hasThinkingBlock := if closeThinking then false else s.hasThinkingBlock,
       hasAnyContent := true,
       streamError := s.streamError },
     stops ++ starts ++ deltas)
  | .toolCall _ _ args =>
    let closeOpen := s.hasStartedTextBlock || s.hasThinkingBlock
    let idx := if closeOpen then s.contentBlockIndex + 1 else s.contentBlockIndex
    let stops : List OutEv := if closeOpen then [.blockStop s.contentBlockIndex] else []
    ({ contentBlockIndex := idx + 1,
       hasStartedTextBlock := false,
       hasThinkingBlock := false,
       hasAnyContent := true,
       streamError := s.streamError },
     stops ++ [.blockStart idx .toolUseBlock, .blockDelta idx args, .blockStop idx])
  | .finish finishReason completionTokens =>
    let stops : List OutEv :=
      if s.hasStartedTextBlock || s.hasThinkingBlock
      then [.blockStop s.contentBlockIndex] else []
    ({ s with hasAnyContent := true },
     stops ++
       [.messageDelta (if finishReason = "tool-calls" then "tool_use" else "end_turn")
          completionTokens,
        .messageStop])
  | .stepStart => (s, [])
  | .stepFinish => (s, [])
  | .unknown => (s, [])

/-- The whole `for await` loop over an upstream part sequence. -/
def processParts : StreamState → List UpEvent → StreamState × List OutEv
  | s, [] => (s, [])
  | s, e :: rest =>
    let r1 := processPart s e
    let r2 := processParts r1.1 rest
    (r2.1, r1.2 ++ r2.2)

/-- The full event trace of part_002's `handleStreamResponse` on a given
upstream part sequence.  `throwsAfter` models the iterator raising an exception
after yielding exactly the listed parts (triggering the `catch` block);
otherwise the loop completes and the empty-stream synthesis may run. -/
def handleStreamResponse (parts : List UpEvent) (throwsAfter : Bool) : List OutEv :=
  let r := processParts initialStreamState parts
  let s := r.1
  let tail : List OutEv :=
    if throwsAfter then
      [.errorEvent] ++
      (if s.hasStartedTextBlock || s.hasThinkingBlock
       then [.blockStop s.contentBlockIndex] else []) ++
      [.messageDelta "error" 0, .messageStop]
    else if !s.hasAnyContent && !s.streamError then
      [.blockStart 0 .textBlock,
       .blockDelta 0 "[Error: No response received from API]",
       .blockStop 0,
       .messageDelta "end_turn" 0,
       .messageStop]
    else []
  .messageStart :: (r.2 ++ tail)

-- ==================== Block-framing invariant checker ====================

/-- Scan the content-block events of a trace, tracking the last started index
(`prev`) and the currently open index (`opened`): a start must find no block
open and a strictly larger index than every earlier start (the first must be
0); a stop must close exactly the open block.  Returns the final scan state, or
`none` on the first violation. -/
def scanBlocks : Option Nat → Option Nat → List OutEv → Option (Option Nat × Option Nat)
  | prev, opened, [] => some (prev, opened)
  | prev, opened, e :: rest =>
    match e with
    | .blockStart i _ =>
      if opened.isNone && (match prev with
                           | none => i == 0
                           | some p => decide (p < i)) then
        scanBlocks (some i) (some i) rest
      else
        none
    | .blockStop i =>
      if opened == some i then scanBlocks prev none rest else none
    | _ => scanBlocks prev opened rest

/-- The streaming ordering guarantee of the claim: block indices strictly
increase from 0, blocks open before they close, no two blocks are ever open at
once, and every opened block is closed by the end of the trace. -/
def validBlockTrace (evs : List OutEv) : Bool :=
  match scanBlocks none none evs with
  | some (_, opened) => opened.isNone
  | none => false

/-- Number of `content_block_start` events in a trace. -/
def countBlockStarts (evs : List OutEv) : Nat :=
  evs.countP (fun e => match e with | .blockStart _ _ => true | _ => false)

-- ==================== Well-formed upstream sequences ====================

/-- Does this part carry upstream content (it sets `hasAnyContent`)? -/
def isContentPart : UpEvent → Bool
  | .reasoning _ => true
  | .textDelta _ => true
  | .toolCall _ _ _ => true
  | _ => false

/-- Is this the terminal `finish` part? -/
def isFinishPart : UpEvent → Bool
  | .finish _ _ => true
  | _ => false

/-- Parts that neither produce content nor terminate nor signal an error. -/
def isInertPart : UpEvent → Bool
  | .stepStart => true
  | .stepFinish => true
  | .unknown => true
  | _ => false

/-- Whether the next upstream part keeps the re-framer's block framing sound in
the current state: a `reasoning` part must not arrive while a text block is
open (the code would re-open the same index), and nothing that touches blocks
may follow a `finish` (the code does not reset its flags there). -/
def partAllowed (s : StreamState) (finished : Bool) : UpEvent → Bool
  | .reasoning _ => !s.hasStartedTextBlock && !finished
  | .textDelta _ => !finished
  | .toolCall _ _ _ => !finished
  | .finish _ _ => !finished
  | _ => true

/-- Well-formedness of an upstream sequence (relative to whether the iterator
throws at the end): every part is allowed in the state it meets, and the
sequence terminates its blocks — on normal completion a block-opening sequence
must have seen a `finish`, and an exception must not arrive after a `finish`
that left the flags set (the `catch` would close an already-closed index). -/
def wfParts (throwsAfter : Bool) : StreamState → Bool → List UpEvent → Bool
  | s, finished, [] =>
    if throwsAfter then
      !(finished && (s.hasStartedTextBlock || s.hasThinkingBlock))
    else
      finished || (!s.hasStartedTextBlock && !s.hasThinkingBlock)
  | s, finished, e :: rest =>
    partAllowed s finished e &&
      wfParts throwsAfter (processPart s e).1 (finished || isFinishPart e) rest

/-- A well-formed upstream sequence, from the initial state. -/
def wellFormedStream (parts : List UpEvent) (throwsAfter : Bool) : Bool :=
  wfParts throwsAfter initialStreamState false parts

/-- Coupling invariant between the re-framer's locals and the block-scan
state: while unfinished, the open scan slot tracks the open flags and the
current index, the last started index trails the current index when no block
is open, and a stream that has produced no content is still in its initial
block state; once `finish` has been processed all blocks are closed. -/
def scanInv (s : StreamState) (finished : Bool) (prev opened : Option Nat) : Prop :=
  (s.hasStartedTextBlock = false ∨ s.hasThinkingBlock = false) ∧
  (if finished = true then opened = none
   else if s.hasStartedTextBlock || s.hasThinkingBlock then
     opened = some s.contentBlockIndex ∧ prev = some s.contentBlockIndex
   else
     opened = none ∧
     prev = (if s.contentBlockIndex = 0 then none
             else some (s.contentBlockIndex - 1))) ∧
  (s.hasAnyContent = false →
    finished = false ∧ s.contentBlockIndex = 0 ∧
    s.hasStartedTextBlock = false ∧ s.hasThinkingBlock = false)

-- ==================== Helper lemmas ====================

theorem getD_map_fn {α β : Type} (f : α → β) (d : α) (l : List α) :
    ∀ i, (l.map f).getD i (f d) = f (l.getD i d) := by
  induction l with
  | nil => intro i; simp [List.getD]
  | cons a l ih =>
    intro i
    cases i with
    | zero => rfl
    | succ n => simpa [List.getD] using ih n

theorem convertMessagesToAISDK_length (msgs : List AnthropicMessage) :
    (convertMessagesToAISDK msgs).length ≤ msgs.length := by
  induction msgs with
  | nil => simp [convertMessagesToAISDK]
  | cons m rest ih =>
    unfold convertMessagesToAISDK
    cases convertMessageToAISDK m <;> simp <;> omega

-- ==================== C5 ====================

/-- C5 counterexample: a credential disabled in January 2025 (record month 1)
and queried on 2026-01-20 — on or after day 15 of a strictly later month — is
still reported disabled, because `isKeyDisabledInKV` compares only the 1–12
month number and the year plays no role. -/
theorem c5_counterexample :
    disableKeyStatus ⟨2025, 1, 10, 0, 0, 0⟩ "quota" 100 =
      { disabledAt := 100, reason := "quota", lastResetMonth := 1 } ∧
    timeKey ⟨2025, 1, 10, 0, 0, 0⟩ < timeKey ⟨2026, 1, 20, 8, 0, 0⟩ ∧
    15 ≤ (20 : Nat) ∧
    (isKeyDisabledInKV (some { disabledAt := 100, reason := "quota", lastResetMonth := 1 })
      ⟨2026, 1, 20, 8, 0, 0⟩).1 = true := by
  refine ⟨rfl, by decide, by decide, rfl⟩

/-- C5 amended: for an existing record, the credential is reported disabled iff
today's UTC day precedes the 15th or the stored disablement month number equals
the current month number (year ignored); in every other case the record is
deleted and the credential reported available, deletion coinciding exactly with
an available verdict; so a record whose month matches stays disabled before day
15 and one queried on/after day 15 of a month with a different number is
deleted and available. -/
theorem c5_amended (rec : KeyStatus) (now : UTCNow) :
    ((isKeyDisabledInKV (some rec) now).1 = true ↔
      (now.day < 15 ∨ rec.lastResetMonth = now.month)) ∧
    ((isKeyDisabledInKV (some rec) now).2 = none ↔
      (isKeyDisabledInKV (some rec) now).1 = false) ∧
    (isKeyDisabledInKV none now = (false, none)) ∧
    (rec.lastResetMonth = now.month → now.day < 15 →
      (isKeyDisabledInKV (some rec) now).1 = true) ∧
    (15 ≤ now.day → rec.lastResetMonth ≠ now.month →
      isKeyDisabledInKV (some rec) now = (false, none)) := by
  unfold isKeyDisabledInKV shouldResetKeys
  by_cases h1 : 15 ≤ now.day <;> by_cases h2 : rec.lastResetMonth = now.month <;>
    simp [h1, h2] <;> omega

/-- C5 witness: both halves of the reset scenario at concrete dates. -/
theorem c5_amended_witness :
    (isKeyDisabledInKV (some { disabledAt := 0, reason := "r", lastResetMonth := 5 })
      ⟨2025, 5, 10, 0, 0, 0⟩).1 = true ∧
    isKeyDisabledInKV (some { disabledAt := 0, reason := "r", lastResetMonth := 5 })
      ⟨2025, 6, 15, 0, 0, 0⟩ = (false, none) :=
  ⟨(c5_amended { disabledAt := 0, reason := "r", lastResetMonth := 5 }
      ⟨2025, 5, 10, 0, 0, 0⟩).2.2.2.1 rfl (by decide),
   (c5_amended { disabledAt := 0, reason := "r", lastResetMonth := 5 }
      ⟨2025, 6, 15, 0, 0, 0⟩).2.2.2.2 (by decide) (by decide)⟩

-- ==================== C6 ====================

/-- C6 counterexample: part_002's `handleNonStreamResponse` computes the stop
reason from `toolCalls` alone, so an upstream finish reason `length` with no
tool calls yields `end_turn`, not `max_tokens` as the claim states for every
converted completion. -/
theorem c6_counterexample :
    nonStreamStopReason
      { text := "hi", reasoning := none, toolCalls := [], finishReason := "length",
        stopSequence := none, promptTokens := 1, completionTokens := 2 } = "end_turn" ∧
    ("end_turn" : String) ≠ "max_tokens" := by
  exact ⟨rfl, by decide⟩

/-- C6 amended: the claimed stop-reason mapping (tool-calls → tool_use,
length → max_tokens, stop → stop_sequence iff a stop sequence was matched,
default end_turn) holds for `buildResponse` (src/src/index.ts); the gateway
variant's `handleNonStreamResponse` instead returns tool_use exactly when tool
calls are present and end_turn otherwise, ignoring the upstream finish
reason. -/
theorem c6_amended (r : GenResult) :
    (r.finishReason = "tool-calls" → buildResponseStopReason r = "tool_use") ∧
    (r.finishReason = "length" → buildResponseStopReason r = "max_tokens") ∧
    (r.finishReason = "stop" → r.stopSequence ≠ none → r.stopSequence ≠ some "" →
      buildResponseStopReason r = "stop_sequence") ∧
    (r.finishReason = "stop" → (r.stopSequence = none ∨ r.stopSequence = some "") →
      buildResponseStopReason r = "end_turn") ∧
    (r.finishReason ≠ "tool-calls" → r.finishReason ≠ "length" →
      r.finishReason ≠ "stop" → buildResponseStopReason r = "end_turn") ∧
    (r.toolCalls = [] → nonStreamStopReason r = "end_turn") ∧
    (r.toolCalls ≠ [] → nonStreamStopReason r = "tool_use") := by
  unfold buildResponseStopReason nonStreamStopReason
  refine ⟨?_, ?_, ?_, ?_, ?_, ?_, ?_⟩
  · intro h; simp [h]
  · intro h; simp [h]
  · intro h h1 h2
    cases hs : r.stopSequence with
    | none => exact absurd hs h1
    | some s =>
      have : s ≠ "" := by intro he; exact h2 (by rw [hs, he])
      simp [h, hs, this]
  · intro h h1
    rcases h1 with h1 | h1 <;> simp [h, h1]
  · intro h1 h2 h3; simp [h1, h2, h3]
  · intro h; simp [h]
  · intro h; simp [h, List.length_eq_zero]

/-- C6 witness: the amended mapping evaluated at a concrete `length` finish. -/
theorem c6_amended_witness :
    buildResponseStopReason
      { text := "hi", reasoning := none, toolCalls := [], finishReason := "length",
        stopSequence := none, promptTokens := 1, completionTokens := 2 } = "max_tokens" :=
  (c6_amended _).2.1 rfl

-- ==================== C7 ====================

/-- C7 counterexample: `convertMessages` (src/src/index.ts) never collapses a
lone plain-text block to string form — the converted content is a one-part
array, not the plain string the claim requires. -/
theorem c7_counterexample :
    convertMessages [{ role := .user, content := .blocks [.text "hi" none] }] =
      [{ role := .user, content := .parts [.text "hi" none] }] ∧
    (CoreContent.parts [.text "hi" none] ≠ .str "hi") := by
  exact ⟨rfl, by decide⟩

/-- C7 amended: plain-string message content passes through unchanged (same
role, same string) in both converters, and the collapse of a lone cache-free
plain-text block to string form holds in the gateway converter
`convertMessagesToAISDK`; the src/src/index.ts `convertMessages` leaves such a
message as a one-part array. -/
theorem c7_amended (role : Role) (s t : String) (rest : List AnthropicMessage) :
    convertMessageToAISDK { role := role, content := .str s } =
      some { role := role, content := .str s } ∧
    convertMessagesToAISDK ({ role := role, content := .str s } :: rest) =
      { role := role, content := .str s } :: convertMessagesToAISDK rest ∧
    convertMessages ({ role := role, content := .str s } :: rest) =
      { role := role, content := .str s } :: convertMessages rest ∧
    convertMessageToAISDK { role := role, content := .blocks [.text t none] } =
      some { role := role, content := .str t } ∧
    convertMessages [{ role := role, content := .blocks [.text t none] }] =
      [{ role := role, content := .parts [.text t none] }] := by
  refine ⟨rfl, ?_, ?_, rfl, rfl⟩
  · simp only [convertMessagesToAISDK, convertMessageToAISDK]
  · simp only [convertMessages, List.map_cons]

-- ==================== C8 ====================

/-- C8 counterexample: an array of two cache-hint-free segments is not
concatenated into a single string by `buildSystemContent` — it becomes a
segment array, contradicting the claimed conditional concatenation. -/
theorem c8_counterexample :
    sysOutIsStr (buildSystemContent (some (.blocks
      [{ type := "text", text := "a", cache_control := none },
       { type := "text", text := "b", cache_control := none }]))) = false ∧
    buildSystemContent (some (.blocks
      [{ type := "text", text := "a", cache_control := none },
       { type := "text", text := "b", cache_control := none }])) =
      some (.parts
        [{ type := "text", text := "a", providerOptions := none },
         { type := "text", text := "b", providerOptions := none }]) := by
  exact ⟨rfl, rfl⟩

/-- C8 amended: `buildSystemContent` maps a segment array — cache-hinted or not
— to one provider segment per input segment, preserving each segment's text and
its own cache hint, and never concatenates (the result is never the string
form); a non-empty plain-string system prompt passes through unchanged (an
empty string is falsy and yields no system content).  The part_001 handler is
the variant that always concatenates, joining segment texts with newlines and
discarding cache hints. -/
theorem c8_amended :
    (∀ s : String, s ≠ "" → buildSystemContent (some (.str s)) = some (.str s)) ∧
    (∀ bs : List SystemBlock, sysOutIsStr (buildSystemContent (some (.blocks bs))) = false) ∧
    (∀ bs : List SystemBlock,
      buildSystemContent (some (.blocks bs)) = some (.parts (bs.map systemSegment)) ∧
      (bs.map systemSegment).length = bs.length ∧
      ∀ i : Nat,
        ((bs.map systemSegment).getD i (systemSegment { type := "text", text := "", cache_control := none })).text =
          (bs.getD i { type := "text", text := "", cache_control := none }).text ∧
        ((bs.map systemSegment).getD i (systemSegment { type := "text", text := "", cache_control := none })).providerOptions =
          (bs.getD i { type := "text", text := "", cache_control := none }).cache_control) ∧
    (∀ bs : List SystemBlock,
      systemOfPart001 (some (.blocks bs)) =
        some (String.intercalate "\n" (bs.map (fun b => b.text)))) := by
  refine ⟨?_, ?_, ?_, fun bs => rfl⟩
  · intro s hs; simp [buildSystemContent, hs]
  · intro bs; rfl
  · intro bs
    refine ⟨rfl, by simp, ?_⟩
    intro i
    rw [getD_map_fn systemSegment _ bs i]
    exact ⟨rfl, rfl⟩

/-- C8 witness: the string-passthrough branch at a concrete prompt. -/
theorem c8_amended_witness :
    buildSystemContent (some (.str "be brief")) = some (.str "be brief") :=
  c8_amended.1 "be brief" (by decide)

-- ==================== C9 ====================

/-- C9 counterexample: the src/src/index.ts `convertToolChoice` maps an
unrecognized tool-choice type to `undefined` (no directive), not to `auto` as
the claim's fail-open rule requires. -/
theorem c9_counterexample :
    convertToolChoiceSrc (some { type := "function", name := "f" }) = none ∧
    (none : Option ToolChoiceOut) ≠ some .auto := by
  exact ⟨rfl, by decide⟩

/-- C9 amended: the claimed mapping (auto → auto, none → none, any → required,
tool → named directive, unrecognized → auto) holds for the gateway variant's
`convertToolChoice`; the src/src/index.ts variant agrees on the four recognized
forms but returns `undefined` for an unrecognized type (and for an absent
tool choice). -/
theorem c9_amended (name : String) :
    convertToolChoice (.str "auto") = .auto ∧
    convertToolChoice (.str "none") = .noneChoice ∧
    convertToolChoice (.obj "any" name) = .required ∧
    convertToolChoice (.obj "tool" name) = .tool name ∧
    (∀ s : String, s ≠ "auto" → s ≠ "none" → convertToolChoice (.str s) = .auto) ∧
    (∀ ty : String, ty ≠ "any" → ty ≠ "tool" → convertToolChoice (.obj ty name) = .auto) ∧
    convertToolChoiceSrc (some { type := "auto", name := name }) = some .auto ∧
    convertToolChoiceSrc (some { type := "none", name := name }) = some .noneChoice ∧
    convertToolChoiceSrc (some { type := "any", name := name }) = some .required ∧
    convertToolChoiceSrc (some { type := "tool", name := name }) = some (.tool name) ∧
    convertToolChoiceSrc none = none ∧
    (∀ ty : String, ty ≠ "auto" → ty ≠ "none" → ty ≠ "any" → ty ≠ "tool" →
      convertToolChoiceSrc (some { type := ty, name := name }) = none) := by
  refine ⟨rfl, rfl, rfl, rfl, ?_, ?_, rfl, rfl, rfl, rfl, rfl, ?_⟩
  · intro s h1 h2; simp [convertToolChoice, h1, h2]
  · intro ty h1 h2; simp [convertToolChoice, h1, h2]
  · intro ty h1 h2 h3 h4; simp [convertToolChoiceSrc, h1, h2, h3, h4]

/-- C9 witness: the fail-open default of the gateway variant at a concrete
unrecognized value. -/
theorem c9_amended_witness :
    convertToolChoice (.str "weird") = .auto :=
  (c9_amended "n").2.2.2.2.1 "weird" (by decide) (by decide)

-- ==================== C10 ====================

/-- C10: the gateway message conversion emits at most one upstream message per
input message, and a block-list message whose blocks convert to zero parts is
omitted entirely, so the converted list can be shorter than the input list. -/
theorem c10_message_omission :
    (∀ msgs : List AnthropicMessage,
      (convertMessagesToAISDK msgs).length ≤ msgs.length) ∧
    (∀ (role : Role) (bs : List ContentBlock),
      bs.flatMap blockToParts = [] →
      convertMessageToAISDK { role := role, content := .blocks bs } = none) ∧
    (∀ (role : Role) (rest : List AnthropicMessage),
      convertMessagesToAISDK
        ({ role := role, content := .blocks [.thinking (some "")] } :: rest) =
        convertMessagesToAISDK rest) := by
  refine ⟨convertMessagesToAISDK_length, ?_, ?_⟩
  · intro role bs h
    unfold convertMessageToAISDK
    simp only [h]
  · intro role rest
    simp only [convertMessagesToAISDK, convertMessageToAISDK]
    rfl

/-- C10 witness: a message whose only block is an absent-text thinking block is
dropped from the converted sequence. -/
theorem c10_message_omission_witness :
    ([ContentBlock.thinking none].flatMap blockToParts = []) ∧
    convertMessageToAISDK { role := .user, content := .blocks [.thinking none] } = none :=
  ⟨rfl, c10_message_omission.2.1 .user [.thinking none] rfl⟩

-- ==================== C3 helpers ====================

theorem nextResetDate_future (now : UTCNow) (hv : validUTC now) :
    timeKey now < timeKey (getNextResetDate now) := by
  obtain ⟨h1, h2, h3, h4, h5, h6, h7⟩ := hv
  unfold getNextResetDate
  split_ifs with hd hm <;> unfold timeKey <;> simp <;> omega

theorem tryKeys_nonquota (attempt : String → AttemptOutcome) (now : UTCNow) :
    ∀ (ks1 : List String) (k : String) (ks2 : List String) (le : Option ErrInfo)
      (dis : List String),
      (∀ k1 ∈ ks1, isQuotaOutcome (attempt k1) = true) →
      isQuotaOutcome (attempt k) = false →
      tryKeys attempt now (ks1 ++ k :: ks2) le dis =
        (immediateResult k (attempt k), dis ++ ks1) := by
  intro ks1
  induction ks1 with
  | nil =>
    intro k ks2 le dis _ hk
    cases h : attempt k with
    | ok => simp [tryKeys, h, immediateResult]
    | httpError status body =>
      cases body with
      | none =>
        rw [h] at hk; simp only [isQuotaOutcome] at hk
        simp [tryKeys, h, hk, immediateResult]
      | some e =>
        rw [h] at hk; simp only [isQuotaOutcome] at hk
        simp [tryKeys, h, hk, immediateResult]
    | thrown e =>
      rw [h] at hk; simp only [isQuotaOutcome] at hk
      simp [tryKeys, h, hk, immediateResult]
  | cons k1 ks1 ih =>
    intro k ks2 le dis hall hk
    have hq := hall k1 (by simp)
    have hrest : ∀ x ∈ ks1, isQuotaOutcome (attempt x) = true := by
      intro x hx; exact hall x (by simp [hx])
    cases h : attempt k1 with
    | ok => rw [h] at hq; simp [isQuotaOutcome] at hq
    | httpError status body =>
      cases body with
      | none =>
        rw [h] at hq; simp only [isQuotaOutcome] at hq
        simp only [List.cons_append, tryKeys, h, hq, if_pos, List.append_eq]
        rw [ih k ks2 none (dis ++ [k1]) hrest hk]
        simp
      | some e =>
        rw [h] at hq; simp only [isQuotaOutcome] at hq
        simp only [List.cons_append, tryKeys, h, hq, if_pos, List.append_eq]
        rw [ih k ks2 (some e) (dis ++ [k1]) hrest hk]
        simp
    | thrown e =>
      rw [h] at hq; simp only [isQuotaOutcome] at hq
      simp only [List.cons_append, tryKeys, h, hq, if_pos, List.append_eq]
      rw [ih k ks2 (some e) (dis ++ [k1]) hrest hk]
      simp

theorem foldl_const_last {α β : Type} (f : α → β) :
    ∀ (ks : List α) (lastKey : α) (init : β),
      ks.getLast? = some lastKey →
      ks.foldl (fun _ k => f k) init = f lastKey := by
  intro ks
  induction ks with
  | nil => intro l i h; simp at h
  | cons k rest ih =>
    intro l i h
    cases rest with
    | nil =>
      simp [List.getLast?] at h
      simp [List.foldl, h]
    | cons r rs =>
      rw [List.getLast?_cons_cons] at h
      rw [List.foldl_cons]
      exact ih l (f k) h

theorem tryKeys_allquota (attempt : String → AttemptOutcome) (now : UTCNow) :
    ∀ (ks : List String) (le : Option ErrInfo) (dis : List String),
      (∀ k ∈ ks, isQuotaOutcome (attempt k) = true) →
      tryKeys attempt now ks le dis =
        (.quotaExhausted 429
          (exhaustMessage (ks.foldl (fun _ k => outcomeErrInfo (attempt k)) le))
          (getNextResetDate now), dis ++ ks) := by
  intro ks
  induction ks with
  | nil => intro le dis _; simp [tryKeys]
  | cons k rest ih =>
    intro le dis hall
    have hk := hall k (by simp)
    have hrest : ∀ x ∈ rest, isQuotaOutcome (attempt x) = true := by
      intro x hx; exact hall x (by simp [hx])
    cases h : attempt k with
    | ok => rw [h] at hk; simp [isQuotaOutcome] at hk
    | httpError status body =>
      cases body with
      | none =>
        rw [h] at hk; simp only [isQuotaOutcome] at hk
        simp only [tryKeys, h, hk, if_pos]
        rw [ih none (dis ++ [k]) hrest]
        simp [List.foldl_cons, h, outcomeErrInfo, List.append_assoc]
      | some e =>
        rw [h] at hk; simp only [isQuotaOutcome] at hk
        simp only [tryKeys, h, hk, if_pos]
        rw [ih (some e) (dis ++ [k]) hrest]
        simp [List.foldl_cons, h, outcomeErrInfo, List.append_assoc]
    | thrown e =>
      rw [h] at hk; simp only [isQuotaOutcome] at hk
      simp only [tryKeys, h, hk, if_pos]
      rw [ih (some e) (dis ++ [k]) hrest]
      simp [List.foldl_cons, h, outcomeErrInfo, List.append_assoc]

-- ==================== C3 ====================

/-- C3: over a non-empty candidate list, the first candidate whose outcome is
not classified as quota exhaustion ends the dispatch immediately with that
outcome (success and non-quota error responses returned as-is, non-quota
exceptions rethrown), exactly the preceding all-quota candidates having been
disabled; if every candidate's outcome is classified as exhaustion, the caller
gets the HTTP 429 quota-exhausted envelope whose message is the last observed
failure's message when available, all candidates are disabled, and the
`nextReset` timestamp is the start of the UTC day of the 15th of the current
month when today precedes the 15th and of the next month otherwise — a
timestamp strictly in the future. -/
theorem c3_dispatch_failover (attempt : String → AttemptOutcome) (now : UTCNow)
    (keys : List String) (hne : keys ≠ []) (hv : validUTC now) :
    (∀ ks1 k ks2, keys = ks1 ++ k :: ks2 →
      (∀ k1 ∈ ks1, isQuotaOutcome (attempt k1) = true) →
      isQuotaOutcome (attempt k) = false →
      handleMessagesWithRetry keys attempt now =
        (immediateResult k (attempt k), ks1)) ∧
    (∀ lastKey, keys.getLast? = some lastKey →
      (∀ k ∈ keys, isQuotaOutcome (attempt k) = true) →
      handleMessagesWithRetry keys attempt now =
        (.quotaExhausted 429 (exhaustMessage (outcomeErrInfo (attempt lastKey)))
          (getNextResetDate now), keys)) ∧
    (now.day < 15 →
      getNextResetDate now = ⟨now.year, now.month, 15, 0, 0, 0⟩) ∧
    (15 ≤ now.day → now.month = 12 →
      getNextResetDate now = ⟨now.year + 1, 1, 15, 0, 0, 0⟩) ∧
    (15 ≤ now.day → now.month ≠ 12 →
      getNextResetDate now = ⟨now.year, now.month + 1, 15, 0, 0, 0⟩) ∧
    timeKey now < timeKey (getNextResetDate now) := by
  have hlen : keys.length ≠ 0 := by
    intro h; exact hne (List.length_eq_zero.mp h)
  refine ⟨?_, ?_, ?_, ?_, ?_, nextResetDate_future now hv⟩
  · intro ks1 k ks2 hsplit hall hk
    unfold handleMessagesWithRetry
    rw [if_neg hlen, hsplit]
    rw [tryKeys_nonquota attempt now ks1 k ks2 none [] hall hk]
    simp
  · intro lastKey hlast hall
    unfold handleMessagesWithRetry
    rw [if_neg hlen]
    rw [tryKeys_allquota attempt now keys none [] hall]
    rw [foldl_const_last (fun k => outcomeErrInfo (attempt k)) keys lastKey none hlast]
    simp
  · intro hd; simp [getNextResetDate, hd]
  · intro hd hm
    have : ¬ now.day < 15 := by omega
    simp [getNextResetDate, this, hm]
  · intro hd hm
    have : ¬ now.day < 15 := by omega
    simp [getNextResetDate, this, hm]

/-- C3 witness: two credentials both failing with a "billing" exception yield
the 429 quota-exhausted result carrying the failure message and the next
monthly reset date, which is strictly later than the current time. -/
theorem c3_dispatch_failover_witness :
    handleMessagesWithRetry ["A", "B"]
      (fun _ => .thrown { message := some "billing issue", type := none })
      ⟨2025, 10, 11, 12, 0, 0⟩ =
      (.quotaExhausted 429 "billing issue" ⟨2025, 10, 15, 0, 0, 0⟩, ["A", "B"]) ∧
    timeKey ⟨2025, 10, 11, 12, 0, 0⟩ <
      timeKey (getNextResetDate ⟨2025, 10, 11, 12, 0, 0⟩) := by
  have h := c3_dispatch_failover
    (fun _ => .thrown { message := some "billing issue", type := none })
    ⟨2025, 10, 11, 12, 0, 0⟩ ["A", "B"] (by decide) (by decide)
  refine ⟨?_, h.2.2.2.2.2⟩
  have hq : ∀ k ∈ ["A", "B"],
      isQuotaOutcome ((fun _ => AttemptOutcome.thrown
        { message := some "billing issue", type := none }) k) = true := by
    intro k _
    rfl
  have := h.2.1 "B" rfl hq
  rw [this]
  rfl

-- ==================== C4 helpers ====================

theorem filterMap_guard {α : Type} (q : α → Bool) (g : Nat → α) :
    ∀ l : List Nat,
      l.filterMap (fun j => if q (g j) then none else some (g j)) =
        (l.map g).filter (fun a => !q a) := by
  intro l
  induction l with
  | nil => rfl
  | cons a l ih =>
    cases hq : q (g a) <;>
      simp [List.filterMap_cons, List.filter_cons, hq, ih]

theorem getD_eq_getElem' {α : Type} :
    ∀ (l : List α) (d : α) (n : Nat) (h : n < l.length), l.getD n d = l[n] := by
  intro l
  induction l with
  | nil => intro d n h; simp at h
  | cons a l ih =>
    intro d n h
    cases n with
    | zero => rfl
    | succ m => exact ih d m (by simpa using h)

theorem range_map_rotation (keys : List String) (i : Nat) (hi : i < keys.length) :
    (List.range keys.length).map (fun j => keys.getD ((i + j) % keys.length) "") =
      keys.drop i ++ keys.take i := by
  apply List.ext_getElem
  · simp
    omega
  · intro j h1 h2
    simp only [List.getElem_map, List.getElem_range]
    by_cases hj : j < keys.length - i
    · have hmod : (i + j) % keys.length = i + j := Nat.mod_eq_of_lt (by omega)
      rw [hmod]
      rw [List.getElem_append_left (by simpa using hj)]
      rw [List.getElem_drop]
      exact getD_eq_getElem' keys "" (i + j) (by omega)
    · have h3 : keys.length ≤ i + j := by omega
      have h4 : i + j - keys.length < keys.length := by
        simp [List.length_range] at h1
        omega
      have hmod : (i + j) % keys.length = i + j - keys.length := by
        rw [Nat.mod_eq_sub_mod h3, Nat.mod_eq_of_lt h4]
      rw [hmod]
      rw [List.getElem_append_right (by simpa using hj)]
      have hidx : j - (keys.drop i).length = i + j - keys.length := by
        simp [List.length_drop]
        omega
      rw [getD_eq_getElem' keys "" (i + j - keys.length) h4]
      simp only [hidx]
      rw [List.getElem_take]

-- ==================== C4 ====================

/-- C4: `getKeysToTry` returns the configured keys in rotation order starting
at the round-robin cursor (drop-then-take split at the cursor), omitting
exactly the keys whose digest is in the process-local disabled cache, and
advances the cursor by exactly one position per call; with 3 keys and no
disablements, 6 consecutive calls yield first entries `[a, b, c, a, b, c]`, so
each distinct key is first exactly twice and consecutive first entries
differ. -/
theorem c4_rotation (keys disabledCache : List String) (i : Nat)
    (hi : i < keys.length) :
    (getKeysToTry keys i disabledCache).1 =
      (keys.drop i ++ keys.take i).filter
        (fun k => !isKeyKnownDisabled disabledCache k) ∧
    (getKeysToTry keys i disabledCache).2 = (i + 1) % keys.length ∧
    (∀ a b c : String,
      (keysToTryCalls [a, b, c] [] 0 6).map (fun l => l.headD "") =
        [a, b, c, a, b, c]) ∧
    (∀ a b c : String, a ≠ b → b ≠ c → a ≠ c →
      ((keysToTryCalls [a, b, c] [] 0 6).map (fun l => l.headD "")).count a = 2 ∧
      ((keysToTryCalls [a, b, c] [] 0 6).map (fun l => l.headD "")).count b = 2 ∧
      ((keysToTryCalls [a, b, c] [] 0 6).map (fun l => l.headD "")).count c = 2 ∧
      List.Chain' (fun x y => x ≠ y)
        ((keysToTryCalls [a, b, c] [] 0 6).map (fun l => l.headD ""))) := by
  refine ⟨?_, rfl, ?_, ?_⟩
  · unfold getKeysToTry
    simp only
    rw [filterMap_guard (isKeyKnownDisabled disabledCache)
      (fun j => keys.getD ((i + j) % keys.length) "") (List.range keys.length)]
    rw [range_map_rotation keys i hi]
  · intro a b c
    have h0 : getKeysToTry [a, b, c] 0 [] = ([a, b, c], 1) := by
      simp [getKeysToTry, isKeyKnownDisabled, List.range_succ, List.getD]
    have h1 : getKeysToTry [a, b, c] 1 [] = ([b, c, a], 2) := by
      simp [getKeysToTry, isKeyKnownDisabled, List.range_succ, List.getD]
    have h2 : getKeysToTry [a, b, c] 2 [] = ([c, a, b], 0) := by
      simp [getKeysToTry, isKeyKnownDisabled, List.range_succ, List.getD]
    simp only [keysToTryCalls, h0, h1, h2]
    rfl
  · intro a b c hab hbc hac
    have h0 : getKeysToTry [a, b, c] 0 [] = ([a, b, c], 1) := by
      simp [getKeysToTry, isKeyKnownDisabled, List.range_succ, List.getD]
    have h1 : getKeysToTry [a, b, c] 1 [] = ([b, c, a], 2) := by
      simp [getKeysToTry, isKeyKnownDisabled, List.range_succ, List.getD]
    have h2 : getKeysToTry [a, b, c] 2 [] = ([c, a, b], 0) := by
      simp [getKeysToTry, isKeyKnownDisabled, List.range_succ, List.getD]
    have he : (keysToTryCalls [a, b, c] [] 0 6).map (fun l => l.headD "") =
        [a, b, c, a, b, c] := by
      simp only [keysToTryCalls, h0, h1, h2]
      rfl
    rw [he]
    have hba : ¬ b = a := fun h => hab h.symm
    have hca : ¬ c = a := fun h => hac h.symm
    have hcb : ¬ c = b := fun h => hbc h.symm
    refine ⟨?_, ?_, ?_, ?_⟩
    · simp [List.count_cons, hba, hca]
    · simp [List.count_cons, hab, hcb]
    · simp [List.count_cons, hac, hbc]
    · simp [List.chain'_cons]
      exact ⟨hab, hbc, hca, hab, hbc⟩

/-- C4 witness: at three concrete distinct keys with an empty disabled cache
and cursor 0, the candidate list is the full rotation and the first key leads
exactly twice over 6 calls. -/
theorem c4_rotation_witness :
    (getKeysToTry ["k1", "k2", "k3"] 0 []).1 = ["k1", "k2", "k3"] ∧
    ((keysToTryCalls ["k1", "k2", "k3"] [] 0 6).map (fun l => l.headD "")).count "k1" = 2 := by
  have h := c4_rotation ["k1", "k2", "k3"] [] 0 (by decide)
  refine ⟨?_, (h.2.2.2 "k1" "k2" "k3" (by decide) (by decide) (by decide)).1⟩
  rw [h.1]
  rfl

-- ==================== Stream re-framer helper lemmas ====================

theorem scanBlocks_messageStart (p o : Option Nat) (rest : List OutEv) :
    scanBlocks p o (.messageStart :: rest) = scanBlocks p o rest := rfl

theorem scanBlocks_errorEvent (p o : Option Nat) (rest : List OutEv) :
    scanBlocks p o (.errorEvent :: rest) = scanBlocks p o rest := rfl

theorem scanBlocks_messageDelta (p o : Option Nat) (sr : String) (n : Nat)
    (rest : List OutEv) :
    scanBlocks p o (.messageDelta sr n :: rest) = scanBlocks p o rest := rfl

theorem scanBlocks_messageStop (p o : Option Nat) (rest : List OutEv) :
    scanBlocks p o (.messageStop :: rest) = scanBlocks p o rest := rfl

theorem scanBlocks_blockDelta (p o : Option Nat) (i : Nat) (t : String)
    (rest : List OutEv) :
    scanBlocks p o (.blockDelta i t :: rest) = scanBlocks p o rest := rfl

theorem scanBlocks_deltas (p o : Option Nat) (i : Nat) (t : String)
    (rest : List OutEv) :
    scanBlocks p o ((if t = "" then [] else [.blockDelta i t]) ++ rest) =
      scanBlocks p o rest := by
  by_cases ht : t = "" <;> simp [ht, scanBlocks]

theorem scanBlocks_deltas_only (p o : Option Nat) (i : Nat) (t : String) :
    scanBlocks p o (if t = "" then [] else [.blockDelta i t]) = some (p, o) := by
  by_cases ht : t = "" <;> simp [ht, scanBlocks]

theorem scanBlocks_start0 (k : BlockKind) (rest : List OutEv) :
    scanBlocks none none (.blockStart 0 k :: rest) = scanBlocks (some 0) (some 0) rest := by
  simp [scanBlocks]

theorem scanBlocks_startS (p i : Nat) (h : p < i) (k : BlockKind) (rest : List OutEv) :
    scanBlocks (some p) none (.blockStart i k :: rest) = scanBlocks (some i) (some i) rest := by
  simp [scanBlocks, h]

theorem scanBlocks_stopE (p : Option Nat) (i : Nat) (rest : List OutEv) :
    scanBlocks p (some i) (.blockStop i :: rest) = scanBlocks p none rest := by
  simp [scanBlocks]

theorem scanBlocks_append (xs : List OutEv) :
    ∀ (ys : List OutEv) (p o : Option Nat),
      scanBlocks p o (xs ++ ys) =
        match scanBlocks p o xs with
        | some r => scanBlocks r.1 r.2 ys
        | none => none := by
  induction xs with
  | nil => intro ys p o; simp [scanBlocks]
  | cons e xs ih =>
    intro ys p o
    cases e with
    | blockStart i k =>
      simp only [List.cons_append, scanBlocks]
      split
      · exact ih ys (some i) (some i)
      · rfl
    | blockStop i =>
      simp only [List.cons_append, scanBlocks]
      split
      · exact ih ys p none
      · rfl
    | messageStart => simpa [scanBlocks] using ih ys p o
    | blockDelta i t => simpa [scanBlocks] using ih ys p o
    | errorEvent => simpa [scanBlocks] using ih ys p o
    | messageDelta sr n => simpa [scanBlocks] using ih ys p o
    | messageStop => simpa [scanBlocks] using ih ys p o

/-- One step of the coupling argument: an allowed upstream part keeps the block
scan alive and re-establishes the invariant. -/
theorem processPart_scan (s : StreamState) (fin : Bool) (prev opened : Option Nat)
    (e : UpEvent) (hInv : scanInv s fin prev opened)
    (hok : partAllowed s fin e = true) :
    ∃ prev' opened',
      scanBlocks prev opened (processPart s e).2 = some (prev', opened') ∧
      scanInv (processPart s e).1 (fin || isFinishPart e) prev' opened' := by
  obtain ⟨hA, hB, hC⟩ := hInv
  cases e with
  | errorPart m =>
    refine ⟨prev, opened, rfl, ?_⟩
    simp only [processPart, isFinishPart, Bool.or_false]
    exact ⟨hA, hB, hC⟩
  | stepStart =>
    refine ⟨prev, opened, rfl, ?_⟩
    simp only [processPart, isFinishPart, Bool.or_false]
    exact ⟨hA, hB, hC⟩
  | stepFinish =>
    refine ⟨prev, opened, rfl, ?_⟩
    simp only [processPart, isFinishPart, Bool.or_false]
    exact ⟨hA, hB, hC⟩
  | unknown =>
    refine ⟨prev, opened, rfl, ?_⟩
    simp only [processPart, isFinishPart, Bool.or_false]
    exact ⟨hA, hB, hC⟩
  | reasoning t =>
    have hok2 : s.hasStartedTextBlock = false ∧ fin = false := by
      simpa [partAllowed] using hok
    obtain ⟨hText, hFin⟩ := hok2
    cases hTh : s.hasThinkingBlock with
    | true =>
      have hB2 : opened = some s.contentBlockIndex ∧ prev = some s.contentBlockIndex := by
        simpa [hFin, hText, hTh] using hB
      refine ⟨prev, opened, ?_, ?_⟩
      · simp only [processPart, hTh, if_true]
        by_cases ht : t = "" <;> simp [ht, scanBlocks]
      · simp only [processPart, hTh, if_true, isFinishPart, Bool.or_false]
        refine ⟨Or.inl hText, ?_, ?_⟩
        · simpa [hFin, hText, hTh] using hB2
        · intro h; simp at h
    | false =>
      have hB2 : opened = none ∧
          prev = (if s.contentBlockIndex = 0 then none
                  else some (s.contentBlockIndex - 1)) := by
        simpa [hFin, hText, hTh] using hB
      obtain ⟨hO, hP⟩ := hB2
      refine ⟨some s.contentBlockIndex, some s.contentBlockIndex, ?_, ?_⟩
      · simp only [processPart, hTh, Bool.false_eq_true, if_false]
        by_cases hidx : s.contentBlockIndex = 0
        · rw [hidx] at hP ⊢
          simp at hP
          rw [hP, hO, scanBlocks_start0, scanBlocks_deltas_only]
        · rw [if_neg hidx] at hP
          rw [hP, hO,
            scanBlocks_startS (s.contentBlockIndex - 1) s.contentBlockIndex (by omega),
            scanBlocks_deltas_only]
      · simp only [processPart, hTh, Bool.false_eq_true, if_false, isFinishPart,
          Bool.or_false]
        refine ⟨Or.inl hText, ?_, ?_⟩
        · simp [hFin, hText]
        · intro h; simp at h
  | textDelta t =>
    have hFin : fin = false := by simpa [partAllowed] using hok
    cases hText : s.hasStartedTextBlock with
    | true =>
      have hTh : s.hasThinkingBlock = false := by
        rcases hA with h | h
        · rw [h] at hText; cases hText
        · exact h
      have hB2 : opened = some s.contentBlockIndex ∧ prev = some s.contentBlockIndex := by
        simpa [hFin, hText, hTh] using hB
      refine ⟨prev, opened, ?_, ?_⟩
      · simp only [processPart, hText, hTh]
        simp only [Bool.and_false, Bool.not_true, if_false, Bool.false_eq_true,
          List.nil_append]
        exact scanBlocks_deltas_only _ _ _ _
      · simp only [processPart, hText, hTh, isFinishPart, Bool.or_false]
        simp only [Bool.and_false, Bool.not_true, Bool.false_eq_true, if_false]
        refine ⟨Or.inr rfl, ?_, ?_⟩
        · simpa [hFin] using hB2
        · intro h; simp at h
    | false =>
      cases hTh : s.hasThinkingBlock with
      | true =>
        -- close the thinking block, open a text block at the next index
        have hB2 : opened = some s.contentBlockIndex ∧ prev = some s.contentBlockIndex := by
          simpa [hFin, hText, hTh] using hB
        obtain ⟨hO, hP⟩ := hB2
        refine ⟨some (s.contentBlockIndex + 1), some (s.contentBlockIndex + 1), ?_, ?_⟩
        · simp only [processPart, hText, hTh]
          simp only [Bool.and_true, Bool.not_false, if_true, Bool.true_and]
          rw [hO, hP]
          simp only [List.cons_append, List.nil_append]
          rw [scanBlocks_stopE,
            scanBlocks_startS s.contentBlockIndex (s.contentBlockIndex + 1) (by omega),
            scanBlocks_deltas_only]
        · simp only [processPart, hText, hTh, isFinishPart, Bool.or_false]
          simp only [Bool.and_true, Bool.not_false, if_true]
          refine ⟨Or.inr rfl, ?_, ?_⟩
          · simp [hFin]
          · intro h; simp at h
      | false =>
        -- open a text block at the current index
        have hB2 : opened = none ∧
            prev = (if s.contentBlockIndex = 0 then none
                    else some (s.contentBlockIndex - 1)) := by
          simpa [hFin, hText, hTh] using hB
        obtain ⟨hO, hP⟩ := hB2
        refine ⟨some s.contentBlockIndex, some s.contentBlockIndex, ?_, ?_⟩
        · simp only [processPart, hText, hTh]
          simp only [Bool.and_false, Bool.false_and, Bool.not_false, if_false, if_true,
            Bool.false_eq_true, List.nil_append]
          simp only [List.singleton_append]
          by_cases hidx : s.contentBlockIndex = 0
          · rw [hidx] at hP ⊢
            simp at hP
            rw [hP, hO, scanBlocks_start0, scanBlocks_deltas_only]
          · rw [if_neg hidx] at hP
            rw [hP, hO,
              scanBlocks_startS (s.contentBlockIndex - 1) s.contentBlockIndex (by omega),
              scanBlocks_deltas_only]
        · simp only [processPart, hText, hTh, isFinishPart, Bool.or_false]
          simp only [Bool.and_false, Bool.false_and, Bool.not_false, if_false,
            Bool.false_eq_true]
          refine ⟨Or.inr rfl, ?_, ?_⟩
          · simp [hFin]
          · intro h; simp at h
  | toolCall id name args =>
    have hFin : fin = false := by simpa [partAllowed] using hok
    by_cases hOpen : s.hasStartedTextBlock || s.hasThinkingBlock
    · have hB2 : opened = some s.contentBlockIndex ∧ prev = some s.contentBlockIndex := by
        simpa [hFin, hOpen] using hB
      obtain ⟨hO, hP⟩ := hB2
      refine ⟨some (s.contentBlockIndex + 1), none, ?_, ?_⟩
      · simp only [processPart, hOpen, if_true]
        rw [hO, hP]
        rw [show ([OutEv.blockStop s.contentBlockIndex] ++
              [OutEv.blockStart (s.contentBlockIndex + 1) .toolUseBlock,
               OutEv.blockDelta (s.contentBlockIndex + 1) args,
               OutEv.blockStop (s.contentBlockIndex + 1)]) =
            OutEv.blockStop s.contentBlockIndex ::
              OutEv.blockStart (s.contentBlockIndex + 1) .toolUseBlock ::
                OutEv.blockDelta (s.contentBlockIndex + 1) args ::
                  [OutEv.blockStop (s.contentBlockIndex + 1)] from by simp]
        rw [scanBlocks_stopE]
        rw [scanBlocks_startS s.contentBlockIndex (s.contentBlockIndex + 1) (by omega)]
        rw [scanBlocks_blockDelta, scanBlocks_stopE]
        rfl
      · simp only [processPart, hOpen, if_true, isFinishPart, Bool.or_false]
        refine ⟨Or.inl rfl, ?_, ?_⟩
        · simp [hFin]
        · intro h; simp at h
    · have hB2 : opened = none ∧
          prev = (if s.contentBlockIndex = 0 then none
                  else some (s.contentBlockIndex - 1)) := by
        simpa [hFin, hOpen] using hB
      obtain ⟨hO, hP⟩ := hB2
      refine ⟨some s.contentBlockIndex, none, ?_, ?_⟩
      · simp only [processPart, hOpen, Bool.false_eq_true, if_false, List.nil_append]
        by_cases hidx : s.contentBlockIndex = 0
        · rw [hidx] at hP ⊢
          simp at hP
          rw [hP, hO]
          rw [scanBlocks_start0, scanBlocks_blockDelta, scanBlocks_stopE]
          rfl
        · rw [if_neg hidx] at hP
          rw [hP, hO]
          rw [scanBlocks_startS (s.contentBlockIndex - 1) s.contentBlockIndex (by omega)]
          rw [scanBlocks_blockDelta, scanBlocks_stopE]
          rfl
      · simp only [processPart, hOpen, Bool.false_eq_true, if_false, isFinishPart,
          Bool.or_false]
        refine ⟨Or.inl rfl, ?_, ?_⟩
        · simp [hFin]
        · intro h; simp at h
  | finish reason tokens =>
    have hFin : fin = false := by simpa [partAllowed] using hok
    by_cases hOpen : s.hasStartedTextBlock || s.hasThinkingBlock
    · have hB2 : opened = some s.contentBlockIndex ∧ prev = some s.contentBlockIndex := by
        simpa [hFin, hOpen] using hB
      obtain ⟨hO, hP⟩ := hB2
      refine ⟨prev, none, ?_, ?_⟩
      · simp only [processPart, hOpen, if_true]
        rw [hO]
        rw [show ([OutEv.blockStop s.contentBlockIndex] ++
              [OutEv.messageDelta (if reason = "tool-calls" then "tool_use" else "end_turn")
                tokens, OutEv.messageStop]) =
            OutEv.blockStop s.contentBlockIndex ::
              OutEv.messageDelta (if reason = "tool-calls" then "tool_use" else "end_turn")
                tokens :: [OutEv.messageStop] from by simp]
        rw [scanBlocks_stopE, scanBlocks_messageDelta, scanBlocks_messageStop]
        rfl
      · simp only [processPart, hOpen, if_true, isFinishPart, Bool.or_true]
        refine ⟨hA, by simp, ?_⟩
        · intro h; simp at h
    · have hB2 : opened = none ∧
          prev = (if s.contentBlockIndex = 0 then none
                  else some (s.contentBlockIndex - 1)) := by
        simpa [hFin, hOpen] using hB
      obtain ⟨hO, hP⟩ := hB2
      refine ⟨prev, none, ?_, ?_⟩
      · simp only [processPart, hOpen, Bool.false_eq_true, if_false, List.nil_append]
        rw [hO]
        rw [scanBlocks_messageDelta, scanBlocks_messageStop]
        rfl
      · simp only [processPart, hOpen, Bool.false_eq_true, if_false, isFinishPart,
          Bool.or_true]
        refine ⟨hA, by simp, ?_⟩
        · intro h; simp at h

theorem scanInv_init : scanInv initialStreamState false none none := by
  simp [scanInv, initialStreamState]

/-- The coupling argument extended over the whole upstream sequence. -/
theorem processParts_scan (t : Bool) :
    ∀ (parts : List UpEvent) (s : StreamState) (fin : Bool) (prev opened : Option Nat),
      scanInv s fin prev opened → wfParts t s fin parts = true →
      ∃ prev' opened',
        scanBlocks prev opened (processParts s parts).2 = some (prev', opened') ∧
        scanInv (processParts s parts).1 (fin || parts.any isFinishPart) prev' opened' ∧
        wfParts t (processParts s parts).1 (fin || parts.any isFinishPart) [] = true := by
  intro parts
  induction parts with
  | nil =>
    intro s fin prev opened hInv hwf
    refine ⟨prev, opened, rfl, ?_, ?_⟩
    · simpa using hInv
    · simpa using hwf
  | cons e rest ih =>
    intro s fin prev opened hInv hwf
    simp only [wfParts, Bool.and_eq_true] at hwf
    obtain ⟨hok, hwf2⟩ := hwf
    obtain ⟨p1, o1, hscan1, hInv1⟩ := processPart_scan s fin prev opened e hInv hok
    obtain ⟨p2, o2, hscan2, hInv2, hend⟩ :=
      ih (processPart s e).1 (fin || isFinishPart e) p1 o1 hInv1 hwf2
    refine ⟨p2, o2, ?_, ?_, ?_⟩
    · show scanBlocks prev opened
        ((processPart s e).2 ++ (processParts (processPart s e).1 rest).2) =
        some (p2, o2)
      rw [scanBlocks_append, hscan1]
      exact hscan2
    · show scanInv (processParts (processPart s e).1 rest).1
        (fin || (e :: rest).any isFinishPart) p2 o2
      have harr : (fin || (e :: rest).any isFinishPart) =
          ((fin || isFinishPart e) || rest.any isFinishPart) := by
        simp [List.any_cons, Bool.or_assoc]
      rw [harr]
      exact hInv2
    · show wfParts t (processParts (processPart s e).1 rest).1
        (fin || (e :: rest).any isFinishPart) [] = true
      have harr : (fin || (e :: rest).any isFinishPart) =
          ((fin || isFinishPart e) || rest.any isFinishPart) := by
        simp [List.any_cons, Bool.or_assoc]
      rw [harr]
      exact hend

/-- C1 counterexample: the upstream sequence `text-delta "a"` then
`reasoning "b"` makes the re-framer emit a second `content_block_start` at
index 0 while the text block at index 0 is still open — the claimed ordering
guarantee fails on this sequence. -/
theorem c1_counterexample :
    validBlockTrace (handleStreamResponse [.textDelta "a", .reasoning "b"] false) = false := by
  rfl

/-- C1 amended: for every well-formed upstream sequence — no reasoning part
arriving while a text block is open, no content-bearing part after `finish`, a
`finish` (or the exception handler) closing any open block before the trace
ends — the emitted content-block indices are strictly increasing from 0, every
start is matched by exactly one stop, blocks open before they close, and no
two blocks are ever open simultaneously. -/
theorem c1_stream_framing (parts : List UpEvent) (throwsAfter : Bool)
    (h : wellFormedStream parts throwsAfter = true) :
    validBlockTrace (handleStreamResponse parts throwsAfter) = true := by
  unfold wellFormedStream at h
  obtain ⟨prev, opened, hscan, hInv, hend⟩ :=
    processParts_scan throwsAfter parts initialStreamState false none none scanInv_init h
  simp only [Bool.false_or] at hInv hend
  rcases ht : processParts initialStreamState parts with ⟨sf, out⟩
  rw [ht] at hscan hInv hend
  obtain ⟨hA, hB, hC⟩ := hInv
  simp only [handleStreamResponse, ht]
  have hmain : ∀ tail : List OutEv,
      (∃ p2 : Option Nat, scanBlocks prev opened tail = some (p2, (none : Option Nat))) →
      validBlockTrace (.messageStart :: (out ++ tail)) = true := by
    intro tail htail
    obtain ⟨p2, htail⟩ := htail
    show validBlockTrace (out ++ tail) = true
    unfold validBlockTrace
    rw [scanBlocks_append, hscan]
    simp [htail]
  cases throwsAfter with
  | true =>
    simp only [wfParts, if_true] at hend
    by_cases hfin : parts.any isFinishPart = true
    · have hFlags : (sf.hasStartedTextBlock || sf.hasThinkingBlock) = false := by
        rw [hfin] at hend
        simpa using hend
      have hO : opened = none := by simpa [hfin] using hB
      apply hmain
      refine ⟨prev, ?_⟩
      simp only [hFlags, Bool.false_eq_true, if_false, eq_self_iff_true, if_true,
        List.nil_append, List.singleton_append, List.cons_append]
      rw [hO, scanBlocks_errorEvent, scanBlocks_messageDelta, scanBlocks_messageStop]
      rfl
    · have hfin2 : parts.any isFinishPart = false := by simpa using hfin
      by_cases hFlags : (sf.hasStartedTextBlock || sf.hasThinkingBlock) = true
      · have hB2 : opened = some sf.contentBlockIndex ∧ prev = some sf.contentBlockIndex := by
          simpa [hfin2, hFlags] using hB
        apply hmain
        refine ⟨prev, ?_⟩
        simp only [hFlags, eq_self_iff_true, if_true, List.nil_append,
          List.singleton_append, List.cons_append]
        rw [hB2.1, scanBlocks_errorEvent, scanBlocks_stopE, scanBlocks_messageDelta,
          scanBlocks_messageStop]
        rfl
      · have hFlags2 : (sf.hasStartedTextBlock || sf.hasThinkingBlock) = false := by
          simpa using hFlags
        have hF12 : sf.hasStartedTextBlock = false ∧ sf.hasThinkingBlock = false := by
          simpa [Bool.or_eq_false_iff] using hFlags2
        have hO : opened = none := by
          have h3 := hB
          simp only [hfin2, Bool.false_eq_true, if_false, hF12.1, hF12.2, Bool.or_self] at h3
          exact h3.1
        apply hmain
        refine ⟨prev, ?_⟩
        simp only [hFlags2, Bool.false_eq_true, if_false, eq_self_iff_true, if_true,
          List.nil_append, List.singleton_append, List.cons_append]
        rw [hO, scanBlocks_errorEvent, scanBlocks_messageDelta, scanBlocks_messageStop]
        rfl
  | false =>
    simp only [wfParts, Bool.false_eq_true, if_false] at hend
    by_cases hNC : (!sf.hasAnyContent && !sf.streamError) = true
    · have hAC : sf.hasAnyContent = false := by
        have := (Bool.and_eq_true _ _).mp hNC
        simpa using this.1
      obtain ⟨hfin0, hidx0, htext0, hth0⟩ := hC hAC
      have htext1 : sf.hasStartedTextBlock = false := htext0
      have hth1 : sf.hasThinkingBlock = false := hth0
      have hidx1 : sf.contentBlockIndex = 0 := hidx0
      have hOB : opened = none ∧ prev = none := by
        have h3 := hB
        simp only [hfin0, htext1, hth1, hidx1, Bool.or_self, Bool.false_eq_true,
          if_false, eq_self_iff_true, if_true] at h3
        exact h3
      apply hmain
      refine ⟨some 0, ?_⟩
      rw [hOB.1, hOB.2]
      simp only [Bool.false_eq_true, if_false, hNC, eq_self_iff_true, if_true]
      rw [scanBlocks_start0, scanBlocks_blockDelta, scanBlocks_stopE,
        scanBlocks_messageDelta, scanBlocks_messageStop]
      rfl
    · have hNC2 : (!sf.hasAnyContent && !sf.streamError) = false := by
        simpa using hNC
      have hO : opened = none := by
        by_cases hfin : parts.any isFinishPart = true
        · simpa [hfin] using hB
        · have hfin2 : parts.any isFinishPart = false := by simpa using hfin
          rw [hfin2] at hend
          simp only [Bool.false_or] at hend
          have h1 : sf.hasStartedTextBlock = false := by
            have := (Bool.and_eq_true _ _).mp hend
            simpa using this.1
          have h2 : sf.hasThinkingBlock = false := by
            have := (Bool.and_eq_true _ _).mp hend
            simpa using this.2
          have h3 := hB
          simp only [hfin2, Bool.false_eq_true, if_false, h1, h2, Bool.or_self] at h3
          exact h3.1
      apply hmain
      refine ⟨prev, ?_⟩
      simp only [hNC2, Bool.false_eq_true, if_false]
      rw [hO]
      rfl

/-- C1 witness: a representative well-formed stream — reasoning, then text,
then a tool call, then `finish` — satisfies the framing invariant. -/
theorem c1_stream_framing_witness :
    wellFormedStream
      [.reasoning "think", .textDelta "hello", .toolCall "t1" "shell" "args",
       .finish "stop" 3] false = true ∧
    validBlockTrace (handleStreamResponse
      [.reasoning "think", .textDelta "hello", .toolCall "t1" "shell" "args",
       .finish "stop" 3] false) = true :=
  ⟨rfl, c1_stream_framing _ _ rfl⟩

-- ==================== C2 ====================

theorem processPart_inert (s : StreamState) (e : UpEvent) (h : isInertPart e = true) :
    processPart s e = (s, []) := by
  cases e <;> simp [isInertPart] at h <;> rfl

theorem processParts_inert :
    ∀ (parts : List UpEvent), (∀ e ∈ parts, isInertPart e = true) →
      ∀ s, processParts s parts = (s, []) := by
  intro parts
  induction parts with
  | nil => intro _ s; rfl
  | cons e rest ih =>
    intro h s
    have he := h e (by simp)
    have hr : ∀ x ∈ rest, isInertPart x = true := by
      intro x hx; exact h x (by simp [hx])
    simp [processParts, processPart_inert s e he, ih hr s]

/-- C2 counterexample: a stream whose iterator raises before any content, and
one whose only upstream part is an explicit error event, both render with zero
content blocks — the synthesized block is suppressed whenever `streamError` is
set or the `catch` path runs, so "exactly one content block" fails. -/
theorem c2_counterexample :
    countBlockStarts (handleStreamResponse [] true) = 0 ∧
    countBlockStarts (handleStreamResponse [.errorPart (some "boom")] false) = 0 ∧
    (0 : Nat) ≠ 1 := by
  exact ⟨rfl, rfl, by decide⟩

/-- C2 amended: a stream that completes without exception and whose upstream
parts carry no content, no error and no finish still yields exactly one content
block — a synthesized text block at index 0, opened, filled with the diagnostic
placeholder delta and closed before the terminal events; when an exception or
an explicit upstream error event precedes all content, no block is
synthesized. -/
theorem c2_empty_stream_synthesis (parts : List UpEvent)
    (h : ∀ e ∈ parts, isInertPart e = true) :
    handleStreamResponse parts false =
      [.messageStart, .blockStart 0 .textBlock,
       .blockDelta 0 "[Error: No response received from API]", .blockStop 0,
       .messageDelta "end_turn" 0, .messageStop] ∧
    countBlockStarts (handleStreamResponse parts false) = 1 := by
  have hp := processParts_inert parts h initialStreamState
  have h1 : handleStreamResponse parts false =
      [.messageStart, .blockStart 0 .textBlock,
       .blockDelta 0 "[Error: No response received from API]", .blockStop 0,
       .messageDelta "end_turn" 0, .messageStop] := by
    simp only [handleStreamResponse, hp]
    rfl
  exact ⟨h1, by rw [h1]; rfl⟩

/-- C2 witness: the synthesis at a concrete content-free upstream sequence. -/
theorem c2_empty_stream_synthesis_witness :
    countBlockStarts (handleStreamResponse [.stepStart] false) = 1 :=
  (c2_empty_stream_synthesis [.stepStart] (by decide)).2
